import Mathlib

/-!
Verification of the citation-store / slide-reference / citation-formatter core
of a PowerPoint citation plugin.

The development shallowly embeds the TypeScript source:
- src/zotero/slide-citation.ts   (CitationFormatter, slide key management,
  showCitationsOnSlide)
- src/zotero/citation-store.ts   (CitationStore: add, getItem, remove, prune,
  getCitationStoreXml normalization)

JavaScript strings are Lean String, arrays are List, nullable/optional values
are Option, and a thrown exception is Option.none of the result.  The XML
persistence layer (fast-xml-parser) is external to the repository; it is
modelled from the specification where needed (see the JsKey / XmlSeq section).
-/

namespace ZPPT

/-- Creator record, from the zotero-api-client type declarations
(ZoteroCreator: creatorType plus optional firstName / lastName / name). -/
structure ZoteroCreator where
  creatorType : String := ""
  firstName : Option String := none
  lastName : Option String := none
  name : Option String := none
deriving DecidableEq, Repr

/-- The scalar bibliographic fields of ZoteroItemData other than key and
creators, as optional strings (required string fields default to empty). -/
structure CitationRest where
  itemType : String := ""
  title : String := ""
  abstractNote : Option String := none
  publicationTitle : Option String := none
  volume : Option String := none
  issue : Option String := none
  pages : Option String := none
  publisher : Option String := none
  DOI : Option String := none
  ISBN : Option String := none
  url : Option String := none
  accessDate : Option String := none
  archive : Option String := none
  archiveLocation : Option String := none
  libraryCatalog : Option String := none
  callNumber : Option String := none
  rights : Option String := none
  date : Option String := none
  extra : Option String := none
  series : Option String := none
  seriesNumber : Option String := none
  institution : Option String := none
  department : Option String := none
  journalAbbreviation : Option String := none
  dateAdded : String := ""
  dateModified : String := ""
deriving DecidableEq, Repr

/-- In-memory citation record (ZoteroItemData): a required string key, a
creator list, and the remaining scalar fields. -/
structure ZoteroItemData where
  key : String
  creators : List ZoteroCreator := []
  rest : CitationRest := {}
deriving DecidableEq, Repr

/-- One styled text run produced by the formatter (FormattedText). -/
structure FormattedText where
  text : String
  bold : Bool
  italic : Bool
deriving DecidableEq, Repr

/-! ## String helpers mirroring JavaScript semantics -/

/-- Replace the first occurrence of a (nonempty) pattern, as JavaScript
String.replace with a string argument does; character-list worker. -/
def replaceFirstList (pat repl : List Char) : List Char → List Char
  | [] => if pat.isEmpty then repl else []
  | c :: rest =>
    if pat.isPrefixOf (c :: rest) then repl ++ (c :: rest).drop pat.length
    else c :: replaceFirstList pat repl rest

/-- JavaScript String.replace with a string search value: first occurrence only. -/
def jsReplace (s pat repl : String) : String :=
  String.mk (replaceFirstList pat.data repl.data s.data)

/-- Character-list worker for jsSplit. -/
def splitCharAux (sep : Char) (acc : List Char) : List Char → List String
  | [] => [String.mk acc]
  | c :: rest =>
    if c = sep then String.mk acc :: splitCharAux sep [] rest
    else splitCharAux sep (acc ++ [c]) rest

/-- JavaScript String.split with a single-character separator: an empty string
splits to a single empty component, separators at the ends produce empty
components. -/
def jsSplit (s : String) (sep : Char) : List String :=
  splitCharAux sep [] s.data

/-- JavaScript Array.join with a separator character, as used for the
comma-joined slide tag value. -/
def joinComma : List String → String
  | [] => ""
  | [s] => s
  | s :: rest => s ++ "," ++ joinComma rest

/-- JavaScript truthiness fallback `v || d` for an optional string: the
default replaces both a missing value and the empty string. -/
def orDefault : Option String → String → String
  | some s, d => if s = "" then d else s
  | none, d => d

/-- JavaScript truthiness fallback `s || d` for a present string. -/
def orNonempty (s d : String) : String := if s = "" then d else s

/-! ## CitationFormatter (slide-citation.ts) -/

/-- CitationFormatter.getDisplayName: `creator.lastName ?? creator.name ??
fallback` (nullish coalescing, so an empty string is kept). -/
def getDisplayName (creator : ZoteroCreator) (fallback : String) : String :=
  creator.lastName.getD (creator.name.getD fallback)

/-- Indexing `creators[idx]` followed by getDisplayName; none models the
TypeError thrown when the index is out of range (reading a property of
undefined). -/
def getDisplayNameAt (creators : List ZoteroCreator) (idx : Nat)
    (fallback : String) : Option String :=
  (creators.get? idx).map (fun cr => getDisplayName cr fallback)

/-- CitationFormatter.getCreator, exactly as written in the source: the
one-creator branch builds `name0 and name1` from creators[0] and the absent
creators[1] (which throws, modelled as none); two or more creators fall into
the `et al.` branch. -/
def getCreator (creators : List ZoteroCreator) (fallback : String) :
    Option String :=
  if creators.length = 0 then some fallback
  else if creators.length = 1 then
    match getDisplayNameAt creators 0 fallback,
          getDisplayNameAt creators 1 fallback with
    | some a, some b => some (a ++ " and " ++ b)
    | _, _ => none
  else
    (getDisplayNameAt creators 0 fallback).map (fun a => a ++ " et al.")

/-- The `{year}` value in CitationFormatter.format: the part of a nonempty
date string before the first dash, the string `n.d.` otherwise. -/
def yearOf (date : Option String) : String :=
  match date with
  | some d => if d = "" then "n.d." else (jsSplit d '-').headD d
  | none => "n.d."

/-- CitationFormatter.getJournalAbbreviation: use a nonempty abbreviation
field that differs from the publication title, else look the publication
title up in the external abbreviation service (svc), else fall back to the
publication title; none when there is no publication title. -/
def getJournalAbbreviationF (c : ZoteroItemData)
    (svc : String → Option String) : Option String :=
  match c.rest.journalAbbreviation with
  | some ja =>
    if ja ≠ "" ∧ c.rest.publicationTitle ≠ some ja then some ja
    else match c.rest.publicationTitle with
      | none => none
      | some p => if p = "" then none else some ((svc p).getD p)
  | none =>
    match c.rest.publicationTitle with
    | none => none
    | some p => if p = "" then none else some ((svc p).getD p)

/-- Optional position information passed to CitationFormatter.format. -/
structure FormatExtras where
  index : Option Nat := none
  startIndex : Option Nat := none
deriving DecidableEq, Repr

/-- The replacement for `{#}`: `(index + (startIndex ?? 0) + 1)` when an index
was supplied, the literal marker otherwise. -/
def hashReplacement (extras : Option FormatExtras) : String :=
  match extras with
  | some e =>
    match e.index with
    | some i => Nat.repr (i + e.startIndex.getD 0 + 1)
    | none => "#"
  | none => "#"

/-- The placeholder-substitution chain of CitationFormatter.format, in the
exact source order of the .replace calls, given the already-computed creator
string. -/
def substituteTemplate (template : String) (c : ZoteroItemData)
    (extras : Option FormatExtras) (svc : String → Option String)
    (creator : String) : String :=
  let year := yearOf c.rest.date
  let jab := (getJournalAbbreviationF c svc).getD ""
  let t := jsReplace template "\x7bcreator\x7d" (orNonempty creator "Unknown")
  let t := jsReplace t "\x7btitle\x7d" (orNonempty c.rest.title "No Title")
  let t := jsReplace t "\x7bkey\x7d" c.key
  let t := jsReplace t "\x7bitemType\x7d" (orNonempty c.rest.itemType "Unknown Type")
  let t := jsReplace t "\x7babstractNote\x7d" (orDefault c.rest.abstractNote "No Abstract")
  let t := jsReplace t "\x7bpublicationTitle\x7d" (orDefault c.rest.publicationTitle "No Publication")
  let t := jsReplace t "\x7bvolume\x7d" (orDefault c.rest.volume "No Volume")
  let t := jsReplace t "\x7bissue\x7d" (orDefault c.rest.issue "No Issue")
  let t := jsReplace t "\x7bpages\x7d" (orDefault c.rest.pages "No Pages")
  let t := jsReplace t "\x7bpublisher\x7d" (orDefault c.rest.publisher "No Publisher")
  let t := jsReplace t "\x7bDOI\x7d" (orDefault c.rest.DOI "No DOI")
  let t := jsReplace t "\x7bISBN\x7d" (orDefault c.rest.ISBN "No ISBN")
  let t := jsReplace t "\x7bURL\x7d" (orDefault c.rest.url "No URL")
  let t := jsReplace t "\x7baccessDate\x7d" (orDefault c.rest.accessDate "No Access Date")
  let t := jsReplace t "\x7barchive\x7d" (orDefault c.rest.archive "No Archive")
  let t := jsReplace t "\x7barchiveLocation\x7d" (orDefault c.rest.archiveLocation "No Archive Location")
  let t := jsReplace t "\x7blibraryCatalog\x7d" (orDefault c.rest.libraryCatalog "No Library Catalog")
  let t := jsReplace t "\x7bcallNumber\x7d" (orDefault c.rest.callNumber "No Call Number")
  let t := jsReplace t "\x7brights\x7d" (orDefault c.rest.rights "No Rights Info")
  let t := jsReplace t "\x7bdate\x7d" (orDefault c.rest.date "No Date")
  let t := jsReplace t "\x7bextra\x7d" (orDefault c.rest.extra "No Extra Info")
  let t := jsReplace t "\x7bseries\x7d" (orDefault c.rest.series "No Series")
  let t := jsReplace t "\x7bseriesNumber\x7d" (orDefault c.rest.seriesNumber "No Series Number")
  let t := jsReplace t "\x7binstitution\x7d" (orDefault c.rest.institution "No Institution")
  let t := jsReplace t "\x7bdepartment\x7d" (orDefault c.rest.department "No Department")
  let t := jsReplace t "\x7byear\x7d" year
  let t := jsReplace t "\x7bjournalAbbreviation\x7d" jab
  jsReplace t "\x7b#\x7d" (hashReplacement extras)

/-- Emit the pending plain-text run if it is nonempty (the source pushes a
segment only `if (textContent)`). -/
def flushSeg (acc : List Char) (bold italic : Bool) : List FormattedText :=
  if acc.isEmpty then [] else [{ text := String.mk acc, bold := bold, italic := italic }]

/-- CitationFormatter.parseFormattedText: scan left to right for the four
tags matched by the regex, flushing the accumulated text with the current
style before each tag and toggling the corresponding flag. -/
def parseFmtAux (bold italic : Bool) (acc : List Char) :
    List Char → List FormattedText
  | [] => flushSeg acc bold italic
  | '<' :: 'b' :: '>' :: rest =>
    flushSeg acc bold italic ++ parseFmtAux true italic [] rest
  | '<' :: '/' :: 'b' :: '>' :: rest =>
    flushSeg acc bold italic ++ parseFmtAux false italic [] rest
  | '<' :: 'i' :: '>' :: rest =>
    flushSeg acc bold italic ++ parseFmtAux bold true [] rest
  | '<' :: '/' :: 'i' :: '>' :: rest =>
    flushSeg acc bold italic ++ parseFmtAux bold false [] rest
  | c :: rest => parseFmtAux bold italic (acc ++ [c]) rest

/-- CitationFormatter.parseFormattedText on a string. -/
def parseFormattedText (s : String) : List FormattedText :=
  parseFmtAux false false [] s.data

/-- The successful body of CitationFormatter.format, given the creator string. -/
def formatCitationCore (template : String) (c : ZoteroItemData)
    (extras : Option FormatExtras) (svc : String → Option String)
    (creator : String) : List FormattedText :=
  parseFormattedText (substituteTemplate template c extras svc creator)

/-- CitationFormatter.format: none models the exception thrown by getCreator
on a one-element creator list; otherwise substitute and parse. -/
def formatCitation (template : String) (c : ZoteroItemData)
    (extras : Option FormatExtras) (svc : String → Option String) :
    Option (List FormattedText) :=
  (getCreator c.creators "Unknown").map
    (fun cr => formatCitationCore template c extras svc cr)

/-! ## Slide-level citation keys (slide-citation.ts)

A slide's citation state is the value of its ZOTERO_CITATIONS tag:
none models an absent tag (isNullObject), some v the stored string. -/

/-- getCitationKeysOnSlide: empty list for an absent or empty tag, the
comma-split value otherwise.  The prune sweep reads tag values the same way. -/
def getCitationKeysOnSlideOp (tag : Option String) : List String :=
  match tag with
  | none => []
  | some v => if v = "" then [] else jsSplit v ','

/-- addCitationKeyToSlide: read the keys, and only when the key is not yet
present append it and rewrite the tag as the comma-joined list.  The Bool
records whether the tag was rewritten. -/
def addCitationKeyToSlideOp (tag : Option String) (k : String) :
    Option String × Bool :=
  let keys := getCitationKeysOnSlideOp tag
  if k ∈ keys then (tag, false)
  else (some (joinComma (keys ++ [k])), true)

/-! ## CitationStore's used-key collection and save flag (citation-store.ts)

The store operations themselves (add, getItem, remove, prune) are embedded
below on the persisted block, through getCitationStoreXml's normalization,
so that the unstringified number-0 key the load path can produce is
representable.  The list-level pruneOp here keeps only what the
frame-condition claim needs: the filter and the unconditional save. -/

/-- All keys referenced by any slide, as collected by CitationStore.prune
from the per-slide tag values. -/
def usedKeysOf (slides : List (Option String)) : List String :=
  (slides.map getCitationKeysOnSlideOp).flatten

/-- Result of CitationStore.prune: the returned count, the resulting record
array, and whether the persisted block was rewritten. -/
structure PruneResult where
  removed : Nat
  store : List ZoteroItemData
  saved : Bool
deriving DecidableEq, Repr

/-- CitationStore.prune: keep the records whose key occurs in some slide's
reference list, save unconditionally, and return the count difference. -/
def pruneOp (store : List ZoteroItemData) (slides : List (Option String)) :
    PruneResult :=
  let used := usedKeysOf slides
  let filtered := store.filter (fun c => decide (c.key ∈ used))
  { removed := store.length - filtered.length, store := filtered, saved := true }

/-! ## Persisted XML block (citation-store.ts plus the external XML codec)

Modelled from the spec: the fast-xml-parser codec is outside the repository;
per the specification the persisted representation may collapse a
one-element sequence (the record list, a creator list) to a bare scalar and
may round-trip a number-like key as a number; all other scalar fields
round-trip unchanged. -/

/-- A parsed JavaScript XML scalar used as a record key: string or number. -/
inductive JsKey where
  | str : String → JsKey
  | num : Nat → JsKey
deriving DecidableEq, Repr

/-- A repeatable XML child after parsing: a bare scalar when the sequence had
exactly one element, a list otherwise. -/
inductive XmlSeq (α : Type) where
  | one : α → XmlSeq α
  | many : List α → XmlSeq α
deriving DecidableEq, Repr

/-- A citation record as it comes out of the XML parser, before the store's
normalization. -/
structure StoredCitation where
  key : JsKey
  creators : XmlSeq ZoteroCreator
  rest : CitationRest
deriving DecidableEq, Repr

/-- A citation record after getCitationStoreXml's normalization: creators is
always an array, the key may still be the number 0 (see fixKey). -/
structure ParsedCitation where
  key : JsKey
  creators : List ZoteroCreator
  rest : CitationRest
deriving DecidableEq, Repr

/-- The persisted citation block: none when the citations element is absent
(fresh part or empty store), some sequence otherwise. -/
abbrev PersistedStore := Option (XmlSeq StoredCitation)

/-- getCitationStoreXml's sequence coercion: wrap a bare scalar in a
one-element array. -/
def normSeq {α : Type} : XmlSeq α → List α
  | .one x => [x]
  | .many l => l

/-- getCitationStoreXml's key coercion `if (citation.key && typeof
citation.key !== "string") citation.key = citation.key.toString()`: a
number key is stringified, except that the number 0 is falsy in JavaScript
and is left untouched. -/
def fixKey : JsKey → JsKey
  | .str s => .str s
  | .num n => if n = 0 then .num 0 else .str (Nat.repr n)

/-- getCitationStoreXml's per-record normalization. -/
def parseCitation (sc : StoredCitation) : ParsedCitation :=
  { key := fixKey sc.key, creators := normSeq sc.creators, rest := sc.rest }

/-- getCitationStoreXml: absent block gives the empty record list, otherwise
coerce the record sequence to an array and normalize each record. -/
def parseStore (p : PersistedStore) : List ParsedCitation :=
  match p with
  | none => []
  | some sq => (normSeq sq).map parseCitation

/-- Decimal digit-string value, as a structural fold. -/
def parseNatList (l : List Char) : Option Nat :=
  if !l.isEmpty && l.all Char.isDigit then
    some (l.foldl (fun n c => n * 10 + (c.toNat - 48)) 0)
  else none

/-- Modelled from the spec: the codec stores a canonical decimal string as a
number-like token. -/
def encodeKeyStr (s : String) : JsKey :=
  match parseNatList s.data with
  | some n => if Nat.repr n = s then .num n else .str s
  | none => .str s

/-- Modelled from the spec: serializing a key that is already a number keeps
it a number. -/
def encodeKey : JsKey → JsKey
  | .str s => encodeKeyStr s
  | .num n => .num n

/-- Modelled from the spec: the codec collapses a one-element sequence to a
bare scalar. -/
def encodeSeq {α : Type} (l : List α) : XmlSeq α :=
  match l with
  | [x] => .one x
  | l => .many l

/-- Modelled from the spec: per-record serialization into the persisted
block; scalar fields round-trip unchanged. -/
def encodeCitation (pc : ParsedCitation) : StoredCitation :=
  { key := encodeKey pc.key, creators := encodeSeq pc.creators, rest := pc.rest }

/-- saveCitationStoreXml: write the whole record list back as one block. -/
def saveStore (l : List ParsedCitation) : PersistedStore :=
  match l with
  | [] => none
  | l => some (encodeSeq (l.map encodeCitation))

/-- The record a caller hands to CitationStore.add, as it sits in memory:
its key is a genuine string. -/
def toParsed (c : ZoteroItemData) : ParsedCitation :=
  { key := .str c.key, creators := c.creators, rest := c.rest }

/-- CitationStore.add through the persisted block: load and normalize, drop
records with the same key (strict equality, so a number key never matches
the string), append, save. -/
def addOp (p : PersistedStore) (c : ZoteroItemData) : PersistedStore :=
  saveStore ((parseStore p).filter (fun e => e.key != JsKey.str c.key)
    ++ [toParsed c])

/-- Map lookup over the freshly parsed store, as CitationStore.getAll builds
it: the last record with the key wins. -/
def mapLookup (l : List ParsedCitation) (k : JsKey) : Option ParsedCitation :=
  l.reverse.find? (fun c => c.key == k)

/-- CitationStore.getItem with a key array, reading through the persisted
block. -/
def getItemManyOp (p : PersistedStore) (keys : List String) :
    List (Option ParsedCitation) :=
  keys.map (fun k => mapLookup (parseStore p) (.str k))

/-- Result of CitationStore.remove over the persisted block. -/
structure RemoveResultP where
  found : Bool
  store : PersistedStore
  saved : Bool
deriving DecidableEq, Repr

/-- CitationStore.remove through the persisted block: load and normalize,
filter by strict key comparison `cit.key !== key` (a number key 0 never
equals the string key), and save only when the array shrank. -/
def removeOpP (p : PersistedStore) (k : String) : RemoveResultP :=
  let loaded := parseStore p
  let filtered := loaded.filter (fun c => c.key != JsKey.str k)
  if filtered.length < loaded.length then ⟨true, saveStore filtered, true⟩
  else ⟨false, p, false⟩

/-- JavaScript `Set<string>.has(key)` applied to a parsed record key:
membership is by strict SameValueZero comparison, so a key that is the
number 0 is never a member of a set of strings. -/
def jsKeyInStrSet (k : JsKey) (used : List String) : Bool :=
  match k with
  | .str s => decide (s ∈ used)
  | .num _ => false

/-- Result of CitationStore.prune over the persisted block. -/
structure PruneResultP where
  removed : Nat
  store : PersistedStore
  saved : Bool
deriving DecidableEq, Repr

/-- CitationStore.prune through the persisted block: load and normalize,
keep the records whose key the string used-set has, save unconditionally,
return the count difference. -/
def pruneOpP (p : PersistedStore) (slides : List (Option String)) :
    PruneResultP :=
  let loaded := parseStore p
  let used := usedKeysOf slides
  let filtered := loaded.filter (fun c => jsKeyInStrSet c.key used)
  { removed := loaded.length - filtered.length, store := saveStore filtered,
    saved := true }

/-- One round of serialize-then-load: what a loaded record becomes after the
store is written back and read again. -/
def reparse (e : ParsedCitation) : ParsedCitation :=
  parseCitation (encodeCitation e)

/-! ## showCitationsOnSlide's segment assembly (slide-citation.ts) -/

/-- The unstyled delimiter segment pushed between citations. -/
def delimSeg (delim : String) : FormattedText :=
  { text := delim, bold := false, italic := false }

/-- The formatter output for the citation at list position i, as a total
function (defined when getCreator does not throw). -/
def fmtTotal (template : String) (svc : String → Option String) (i : Nat)
    (c : ZoteroItemData) : List FormattedText :=
  formatCitationCore template c (some { index := some i }) svc
    ((getCreator c.creators "Unknown").getD "")

/-- The segment-building loop of showCitationsOnSlide: n is the length of the
full citation list, i the current index; a missing citation is skipped
entirely (continue), a present one contributes its formatted segments
followed by the delimiter segment whenever i < n - 1. -/
def renderLoopAux (template delim : String) (svc : String → Option String)
    (n : Nat) : Nat → List (Option ZoteroItemData) →
    Option (List FormattedText)
  | _, [] => some []
  | i, none :: rest => renderLoopAux template delim svc n (i + 1) rest
  | i, some c :: rest =>
    match formatCitation template c (some { index := some i }) svc with
    | none => none
    | some segs =>
      match renderLoopAux template delim svc n (i + 1) rest with
      | none => none
      | some restSegs =>
        some (segs ++ (if i < n - 1 then [delimSeg delim] else []) ++ restSegs)

/-- The ordered segment list showCitationsOnSlide writes into the text box,
for the citations looked up from one slide's key list. -/
def showCitationSegments (template delim : String)
    (svc : String → Option String) (cs : List (Option ZoteroItemData)) :
    Option (List FormattedText) :=
  renderLoopAux template delim svc cs.length 0 cs

/-- Delimiter-placement companion: a present citation is followed by the
delimiter segment exactly when it is not the final element of the citation
list. -/
def renderSpecSegs (f : Nat → ZoteroItemData → List FormattedText)
    (delim : String) : Nat → List (Option ZoteroItemData) → List FormattedText
  | _, [] => []
  | i, none :: rest => renderSpecSegs f delim (i + 1) rest
  | i, some c :: rest =>
    f i c ++ (if rest.isEmpty then [] else [delimSeg delim])
      ++ renderSpecSegs f delim (i + 1) rest

/-- The per-citation segment lists of the rendered (present) citations, each
paired with its original list position. -/
def renderedSegLists (f : Nat → ZoteroItemData → List FormattedText) :
    Nat → List (Option ZoteroItemData) → List (List FormattedText)
  | _, [] => []
  | i, none :: rest => renderedSegLists f (i + 1) rest
  | i, some c :: rest => f i c :: renderedSegLists f (i + 1) rest

/-! ## Toggle-semantics reference parser (from the specification text)

A second, independently structured description of the inline-markup pass:
first lex the template into character and tag tokens, then fold a style
state over the tokens; an opening tag turns its style on, a closing tag
turns it off, the two styles toggle independently, tags are stripped, and
maximal pending text is emitted at each tag and at the end. -/

/-- Bold or italic. -/
inductive StyleKind where
  | b : StyleKind
  | i : StyleKind
deriving DecidableEq, Repr

/-- A lexed token: a plain character or a (closing?, style) tag. -/
inductive MarkToken where
  | chr : Char → MarkToken
  | tag : Bool → StyleKind → MarkToken
deriving DecidableEq, Repr

/-- Lex the four markup tags out of the character stream. -/
def lexMarkup : List Char → List MarkToken
  | [] => []
  | '<' :: 'b' :: '>' :: rest => .tag false .b :: lexMarkup rest
  | '<' :: '/' :: 'b' :: '>' :: rest => .tag true .b :: lexMarkup rest
  | '<' :: 'i' :: '>' :: rest => .tag false .i :: lexMarkup rest
  | '<' :: '/' :: 'i' :: '>' :: rest => .tag true .i :: lexMarkup rest
  | c :: rest => .chr c :: lexMarkup rest

/-- Fold state of the toggle-semantics parser. -/
structure MarkState where
  bold : Bool
  italic : Bool
  acc : List Char
  out : List FormattedText
deriving DecidableEq, Repr

/-- One token step: text accumulates; a tag flushes the pending text with the
styles in force before it and sets its own style to (not closing). -/
def specStep (st : MarkState) (t : MarkToken) : MarkState :=
  match t with
  | .chr c => { st with acc := st.acc ++ [c] }
  | .tag closing .b =>
    { bold := !closing, italic := st.italic, acc := [],
      out := st.out ++ flushSeg st.acc st.bold st.italic }
  | .tag closing .i =>
    { bold := st.bold, italic := !closing, acc := [],
      out := st.out ++ flushSeg st.acc st.bold st.italic }

/-- Emit the segments gathered by the fold plus the final pending text. -/
def specFinish (st : MarkState) : List FormattedText :=
  st.out ++ flushSeg st.acc st.bold st.italic

/-- Toggle-semantics segmentation of a substituted template, per the
specification wording. -/
def specSegments (s : String) : List FormattedText :=
  specFinish ((lexMarkup s.data).foldl specStep
    { bold := false, italic := false, acc := [], out := [] })

/-- The input with every markup tag token removed (the same left-to-right
scan; tag occurrences cannot overlap, each starts with the only angle
bracket it contains, so this is the unique removal). -/
def stripMarkupTags : List Char → List Char
  | [] => []
  | '<' :: 'b' :: '>' :: rest => stripMarkupTags rest
  | '<' :: '/' :: 'b' :: '>' :: rest => stripMarkupTags rest
  | '<' :: 'i' :: '>' :: rest => stripMarkupTags rest
  | '<' :: '/' :: 'i' :: '>' :: rest => stripMarkupTags rest
  | c :: rest => c :: stripMarkupTags rest

/-! ## Shared helper lemmas -/

theorem length_filter_lt_iff {α : Type} (p : α → Bool) (l : List α) :
    (l.filter p).length < l.length ↔ ∃ c ∈ l, p c = false := by
  induction l with
  | nil => simp
  | cons a t ih =>
    by_cases h : p a = true
    · rw [List.filter_cons_of_pos h]
      simp only [List.length_cons, Nat.succ_lt_succ_iff, ih, List.mem_cons]
      constructor
      · rintro ⟨c, hc, hcf⟩
        exact ⟨c, Or.inr hc, hcf⟩
      · rintro ⟨c, hc | hc, hcf⟩
        · subst hc; rw [h] at hcf; cases hcf
        · exact ⟨c, hc, hcf⟩
    · have hf : p a = false := by simpa using h
      rw [List.filter_cons_of_neg h]
      simp only [List.length_cons]
      constructor
      · intro _
        exact ⟨a, List.mem_cons_self a t, hf⟩
      · intro _
        exact Nat.lt_succ_of_le (List.length_filter_le p t)

theorem filterP_bne_beq_nil (k : JsKey) (l : List ParsedCitation) :
    (l.filter (fun c => c.key != k)).filter (fun c => c.key == k) = [] := by
  induction l with
  | nil => rfl
  | cons a t ih =>
    by_cases h : a.key = k
    · rw [List.filter_cons_of_neg (by simp [h])]
      exact ih
    · rw [List.filter_cons_of_pos (by simp [h]),
        List.filter_cons_of_neg (by simp [h])]
      exact ih

theorem filterP_bne_beq_other (k j : JsKey) (hj : j ≠ k)
    (l : List ParsedCitation) :
    (l.filter (fun c => c.key != k)).filter (fun c => c.key == j)
      = l.filter (fun c => c.key == j) := by
  have hkj : k ≠ j := fun hc => hj hc.symm
  induction l with
  | nil => rfl
  | cons a t ih =>
    by_cases h : a.key = k
    · rw [List.filter_cons_of_neg (by simp [h]),
        List.filter_cons_of_neg (by simp [h]; exact hkj), ih]
    · by_cases h2 : a.key = j
      · rw [List.filter_cons_of_pos (by simp [h]),
          List.filter_cons_of_pos (by simp [h2]),
          List.filter_cons_of_pos (by simp [h2]), ih]
      · rw [List.filter_cons_of_pos (by simp [h]),
          List.filter_cons_of_neg (by simp [h2]),
          List.filter_cons_of_neg (by simp [h2]), ih]

theorem length_sub_length_filter {α : Type} (p : α → Bool)
    (l : List α) :
    l.length - (l.filter p).length = (l.filter (fun c => !(p c))).length := by
  induction l with
  | nil => rfl
  | cons a t ih =>
    by_cases h : p a = true
    · rw [List.filter_cons_of_pos h, List.filter_cons_of_neg (by simp [h])]
      simpa [Nat.succ_sub_succ] using ih
    · have hf : p a = false := by simpa using h
      rw [List.filter_cons_of_neg h, List.filter_cons_of_pos (by simp [hf])]
      rw [List.length_cons, List.length_cons,
        Nat.succ_sub (List.length_filter_le p t), ih]

theorem splitCharAux_sepfree (sep : Char) (xs : List Char) (h : sep ∉ xs) :
    ∀ acc, splitCharAux sep acc xs = [String.mk (acc ++ xs)] := by
  induction xs with
  | nil => intro acc; simp [splitCharAux]
  | cons c rest ih =>
    intro acc
    have hc : c ≠ sep := fun he => h (he ▸ List.mem_cons_self c rest)
    have hr : sep ∉ rest := fun he => h (List.mem_cons_of_mem c he)
    rw [splitCharAux, if_neg hc, ih hr]
    simp

theorem splitCharAux_append_sep (sep : Char) (xs ys : List Char)
    (h : sep ∉ xs) : ∀ acc,
    splitCharAux sep acc (xs ++ sep :: ys)
      = String.mk (acc ++ xs) :: splitCharAux sep [] ys := by
  induction xs with
  | nil =>
    intro acc
    simp [splitCharAux]
  | cons c rest ih =>
    intro acc
    have hc : c ≠ sep := fun he => h (he ▸ List.mem_cons_self c rest)
    have hr : sep ∉ rest := fun he => h (List.mem_cons_of_mem c he)
    rw [List.cons_append, splitCharAux, if_neg hc, ih hr]
    simp

theorem jsSplit_joinComma (l : List String) (hl : l ≠ [])
    (hcf : ∀ s ∈ l, ',' ∉ s.data) : jsSplit (joinComma l) ',' = l := by
  induction l with
  | nil => exact absurd rfl hl
  | cons s rest ih =>
    cases rest with
    | nil =>
      unfold jsSplit joinComma
      rw [splitCharAux_sepfree ',' s.data (hcf s (List.mem_cons_self s []))]
      rfl
    | cons s2 rest2 =>
      have hjoin : (s ++ "," ++ joinComma (s2 :: rest2)).data
          = s.data ++ ',' :: (joinComma (s2 :: rest2)).data := by
        simp [String.data_append]
      unfold jsSplit joinComma
      rw [hjoin, splitCharAux_append_sep ',' s.data _
        (hcf s (List.mem_cons_self s _))]
      have ihr := ih (by simp)
        (fun x hx => hcf x (List.mem_cons_of_mem s hx))
      unfold jsSplit at ihr
      rw [ihr]
      rfl

theorem jsSplit_sep_not_mem (sep : Char) :
    ∀ (xs acc : List Char), sep ∉ acc →
      ∀ s ∈ splitCharAux sep acc xs, sep ∉ s.data := by
  intro xs
  induction xs with
  | nil =>
    intro acc hacc s hs
    rw [splitCharAux] at hs
    simp only [List.mem_singleton] at hs
    subst hs
    simpa using hacc
  | cons c rest ih =>
    intro acc hacc s hs
    rw [splitCharAux] at hs
    by_cases hc : c = sep
    · rw [if_pos hc] at hs
      rcases List.mem_cons.mp hs with hs | hs
      · subst hs
        simpa using hacc
      · exact ih [] (by simp) s hs
    · rw [if_neg hc] at hs
      refine ih (acc ++ [c]) ?_ s hs
      intro hmem
      rcases List.mem_append.mp hmem with hm | hm
      · exact hacc hm
      · simp at hm
        exact hc hm.symm

theorem slideKeys_comma_free (tag : Option String) :
    ∀ s ∈ getCitationKeysOnSlideOp tag, ',' ∉ s.data := by
  intro s hs
  cases tag with
  | none => simp [getCitationKeysOnSlideOp] at hs
  | some v =>
    simp only [getCitationKeysOnSlideOp] at hs
    by_cases hv : v = ""
    · rw [if_pos hv] at hs; cases hs
    · rw [if_neg hv] at hs
      exact jsSplit_sep_not_mem ',' v.data [] (by simp) s hs

/-! ## Concrete records used by witnesses, counterexamples and examples -/

def smithCreator : ZoteroCreator := { creatorType := "author", lastName := some "Smith" }

def doeCreator : ZoteroCreator := { creatorType := "author", lastName := some "Doe" }

def roeCreator : ZoteroCreator := { creatorType := "author", lastName := some "Roe" }

def recA : ZoteroItemData := { key := "A" }

def recB : ZoteroItemData := { key := "B" }

def recC : ZoteroItemData := { key := "C" }

/-! ## Claims -/

/-- C1: evaluation of CitationFormatter.getCreator at the decisive creator
counts.  Against both the claim and the function's own doc comment
(0 creators: fallback, 1: the single display name, 2: both names joined by
and, 3 or more: et al.), the code returns the fallback for 0 creators, but
throws for exactly 1 creator (the one-creator branch reads creators[1],
which is undefined), and produces the et-al form already for 2 creators. -/
theorem creator_formatting_code_behavior :
    getCreator [] "Unknown" = some "Unknown"
    ∧ getCreator [smithCreator] "Unknown" = none
    ∧ getCreator [smithCreator, doeCreator] "Unknown" = some "Smith et al."
    ∧ getCreator [smithCreator, doeCreator, roeCreator] "Unknown"
        = some "Smith et al." := by
  refine ⟨rfl, rfl, rfl, rfl⟩

/-- C6 counterexample: with one stored record that is still referenced by a
slide, prune removes nothing, so the filtered store equals the original, and
yet the persisted block is rewritten (saved), contradicting the claim that
it is persisted only when it differs. -/
theorem prune_frame_counterexample :
    (pruneOp [recA] [some "A"]).store = [recA]
    ∧ (pruneOp [recA] [some "A"]).saved = true
    ∧ (pruneOp [recA] [some "A"]).removed = 0 := by
  refine ⟨by decide, rfl, by decide⟩

/-- C6 amended: prune persists the filtered store unconditionally; in
particular, when every stored record is still referenced by some slide, the
store content is unchanged and 0 is returned, but the persisted block is
still rewritten. -/
theorem prune_always_saves (store : List ZoteroItemData)
    (slides : List (Option String))
    (h : ∀ c ∈ store, c.key ∈ usedKeysOf slides) :
    (pruneOp store slides).saved = true
    ∧ (pruneOp store slides).store = store
    ∧ (pruneOp store slides).removed = 0 := by
  have hf : store.filter (fun c => decide (c.key ∈ usedKeysOf slides)) = store :=
    List.filter_eq_self.mpr (fun a ha => by simpa using h a ha)
  unfold pruneOp
  dsimp only
  rw [hf]
  exact ⟨rfl, rfl, Nat.sub_self _⟩

/-- C6 amended witness: a two-record store fully referenced by one slide is
left unchanged but still saved. -/
theorem prune_always_saves_witness :
    (pruneOp [recA, recB] [some "A,B"]).saved = true
    ∧ (pruneOp [recA, recB] [some "A,B"]).store = [recA, recB]
    ∧ (pruneOp [recA, recB] [some "A,B"]).removed = 0 :=
  prune_always_saves [recA, recB] [some "A,B"] (by decide)

/-- C7: addCitationKeyToSlide is a no-op when the key is already on the
slide, otherwise rewrites the tag with the key appended at the end; a second
identical call is a no-op on the updated tag, and (given the at-most-once
page invariant) the updated list carries exactly one element for the key.
The hypotheses are the spec's key well-formedness assumptions: keys are
nonempty and do not contain the comma separator. -/
theorem addKey_idempotent_append (tag : Option String) (k : String)
    (hk : k ≠ "") (hc : ',' ∉ k.data) :
    (k ∈ getCitationKeysOnSlideOp tag →
      addCitationKeyToSlideOp tag k = (tag, false))
    ∧ (k ∉ getCitationKeysOnSlideOp tag →
        getCitationKeysOnSlideOp (addCitationKeyToSlideOp tag k).1
          = getCitationKeysOnSlideOp tag ++ [k])
    ∧ addCitationKeyToSlideOp (addCitationKeyToSlideOp tag k).1 k
        = ((addCitationKeyToSlideOp tag k).1, false)
    ∧ (List.count k (getCitationKeysOnSlideOp tag) ≤ 1 →
        List.count k (getCitationKeysOnSlideOp (addCitationKeyToSlideOp tag k).1)
          = 1) := by
  have hkeys : ∀ s ∈ getCitationKeysOnSlideOp tag ++ [k], ',' ∉ s.data := by
    intro s hs
    rcases List.mem_append.mp hs with hm | hm
    · exact slideKeys_comma_free tag s hm
    · simp at hm
      subst hm
      exact hc
  have hv : joinComma (getCitationKeysOnSlideOp tag ++ [k]) ≠ "" := by
    intro he
    have hrt := jsSplit_joinComma (getCitationKeysOnSlideOp tag ++ [k])
      (by simp) hkeys
    rw [he] at hrt
    have h2 : jsSplit "" ',' = [""] := rfl
    rw [h2] at hrt
    cases hkk : getCitationKeysOnSlideOp tag with
    | nil =>
      rw [hkk] at hrt
      simp at hrt
      exact hk hrt.symm
    | cons a t =>
      rw [hkk] at hrt
      have := congrArg List.length hrt
      simp at this
  have hget : getCitationKeysOnSlideOp
      (some (joinComma (getCitationKeysOnSlideOp tag ++ [k])))
        = getCitationKeysOnSlideOp tag ++ [k] := by
    have hstep : getCitationKeysOnSlideOp
        (some (joinComma (getCitationKeysOnSlideOp tag ++ [k])))
          = if joinComma (getCitationKeysOnSlideOp tag ++ [k]) = "" then []
            else jsSplit (joinComma (getCitationKeysOnSlideOp tag ++ [k])) ',' := rfl
    rw [hstep, if_neg hv]
    exact jsSplit_joinComma _ (by simp) hkeys
  refine ⟨?_, ?_, ?_, ?_⟩
  · intro hmem
    unfold addCitationKeyToSlideOp
    rw [if_pos hmem]
  · intro hmem
    unfold addCitationKeyToSlideOp
    rw [if_neg hmem]
    exact hget
  · by_cases hmem : k ∈ getCitationKeysOnSlideOp tag
    · unfold addCitationKeyToSlideOp
      rw [if_pos hmem]
      dsimp only
      rw [if_pos hmem]
    · unfold addCitationKeyToSlideOp
      rw [if_neg hmem]
      dsimp only
      rw [hget, if_pos (by simp)]
  · intro hcount
    by_cases hmem : k ∈ getCitationKeysOnSlideOp tag
    · unfold addCitationKeyToSlideOp
      rw [if_pos hmem]
      dsimp only
      have hpos : 0 < List.count k (getCitationKeysOnSlideOp tag) :=
        List.count_pos_iff.mpr hmem
      omega
    · unfold addCitationKeyToSlideOp
      rw [if_neg hmem]
      dsimp only
      rw [hget, List.count_append]
      have hzero : List.count k (getCitationKeysOnSlideOp tag) = 0 :=
        List.count_eq_zero.mpr hmem
      simp [hzero]

/-- C7 witness: adding a fresh key to a slide with no citation tag writes a
one-element list containing exactly that key once. -/
theorem addKey_idempotent_append_witness :
    getCitationKeysOnSlideOp (addCitationKeyToSlideOp none "X1").1
      = getCitationKeysOnSlideOp none ++ ["X1"]
    ∧ List.count "X1"
        (getCitationKeysOnSlideOp (addCitationKeyToSlideOp none "X1").1) = 1 :=
  ⟨(addKey_idempotent_append none "X1" (by decide) (by decide)).2.1 (by decide),
   (addKey_idempotent_append none "X1" (by decide) (by decide)).2.2.2 (by decide)⟩

/-! ## Round trip through the persisted block (C3) -/

theorem normSeq_encodeSeq {α : Type} (l : List α) : normSeq (encodeSeq l) = l := by
  cases l with
  | nil => rfl
  | cons x xs => cases xs <;> rfl

theorem fixKey_encodeKeyStr (s : String) (hs : s ≠ "0") :
    fixKey (encodeKeyStr s) = .str s := by
  unfold encodeKeyStr
  cases h : parseNatList s.data with
  | none => rfl
  | some n =>
    show fixKey (if Nat.repr n = s then JsKey.num n else JsKey.str s)
      = JsKey.str s
    by_cases hr : Nat.repr n = s
    · rw [if_pos hr]
      have hfix : fixKey (JsKey.num n)
          = if n = 0 then JsKey.num 0 else JsKey.str (Nat.repr n) := rfl
      rw [hfix]
      by_cases hn : n = 0
      · exfalso
        rw [hn] at hr
        exact hs (hr.symm.trans (by decide))
      · rw [if_neg hn, hr]
    · rw [if_neg hr]
      rfl

theorem parse_encode_toParsed (c : ZoteroItemData) (h : c.key ≠ "0") :
    parseCitation (encodeCitation (toParsed c)) = toParsed c := by
  unfold parseCitation encodeCitation toParsed
  dsimp only
  rw [normSeq_encodeSeq]
  have hk : encodeKey (.str c.key) = encodeKeyStr c.key := rfl
  rw [hk, fixKey_encodeKeyStr c.key h]

theorem parseStore_saveStore (l : List ParsedCitation) :
    parseStore (saveStore l)
      = l.map (fun pc => parseCitation (encodeCitation pc)) := by
  cases l with
  | nil => rfl
  | cons a t =>
    show List.map parseCitation (normSeq (encodeSeq ((a :: t).map encodeCitation)))
      = _
    rw [normSeq_encodeSeq, List.map_map]
    rfl

theorem mapLookup_append_last (l : List ParsedCitation) (x : ParsedCitation)
    (k : JsKey) (h : (x.key == k) = true) : mapLookup (l ++ [x]) k = some x := by
  unfold mapLookup
  rw [List.reverse_append]
  show List.find? _ (x :: l.reverse) = some x
  exact List.find?_cons_of_pos _ h

/-- A record whose key is the canonical numeral 0: the XML codec stores it as
a number-like token and the store's key coercion skips it (JavaScript
truthiness), so the written record is no longer found under its key. -/
def recZero : ZoteroItemData := { key := "0" }

/-- C3 counterexample: upserting the record with key 0 into an empty store
and reading it back through getItem yields absent, not the record, because
the persisted key round-trips as the number 0, which the normalization
leaves unstringified and strict comparison then never matches. -/
theorem store_roundtrip_counterexample :
    getItemManyOp (addOp none recZero) [recZero.key] = [none]
    ∧ getItemManyOp (addOp none recZero) [recZero.key]
        ≠ [some (toParsed recZero)] := by
  exact ⟨by decide, by decide⟩

/-- C3 amended: for every record whose key is not the canonical decimal
numeral 0 (in particular every ordinary alphanumeric citation key), upsert
followed by getMany on that key returns exactly the written record,
field for field, from any prior persisted state. -/
theorem store_roundtrip (p : PersistedStore) (c : ZoteroItemData)
    (h : c.key ≠ "0") :
    getItemManyOp (addOp p c) [c.key] = [some (toParsed c)] := by
  unfold getItemManyOp addOp
  rw [List.map_singleton, parseStore_saveStore, List.map_append]
  show [mapLookup (_ ++ [parseCitation (encodeCitation (toParsed c))])
    (.str c.key)] = _
  rw [parse_encode_toParsed c h,
    mapLookup_append_last _ _ _ (by simp [toParsed])]

/-- C3 witness: the round trip at a concrete record with an ordinary key. -/
theorem store_roundtrip_witness :
    getItemManyOp (addOp none recA) [recA.key] = [some (toParsed recA)] :=
  store_roundtrip none recA (by decide)

/-! ## Key normalization through save and reload (C2, C4, C5) -/

theorem parseStore_saveStore_reparse (l : List ParsedCitation) :
    parseStore (saveStore l) = l.map reparse :=
  parseStore_saveStore l

theorem fixKey_idem (k : JsKey) : fixKey (fixKey k) = fixKey k := by
  cases k with
  | str s => rfl
  | num n =>
    by_cases h : n = 0
    · subst h
      rfl
    · have h1 : fixKey (JsKey.num n) = JsKey.str (Nat.repr n) := by
        show (if n = 0 then JsKey.num 0 else JsKey.str (Nat.repr n)) = _
        rw [if_neg h]
      rw [h1]
      rfl

theorem parseStore_key_fixed (p : PersistedStore) :
    ∀ e ∈ parseStore p, fixKey e.key = e.key := by
  intro e he
  cases p with
  | none => cases he
  | some sq =>
    have he2 : e ∈ (normSeq sq).map parseCitation := he
    rw [List.mem_map] at he2
    obtain ⟨sc, _, hes⟩ := he2
    subst hes
    exact fixKey_idem sc.key

theorem fixKey_encodeKey_of_fixed (k : JsKey) (hfix : fixKey k = k) :
    fixKey (encodeKey k) = k ∨ fixKey (encodeKey k) = JsKey.num 0 := by
  cases k with
  | str s =>
    by_cases hs : s = "0"
    · subst hs
      right
      decide
    · left
      exact fixKey_encodeKeyStr s hs
  | num n =>
    have hn : n = 0 := by
      by_cases h : n = 0
      · exact h
      · exfalso
        have h1 : fixKey (JsKey.num n) = JsKey.str (Nat.repr n) := by
          show (if n = 0 then JsKey.num 0 else JsKey.str (Nat.repr n)) = _
          rw [if_neg h]
        rw [h1] at hfix
        simp at hfix
    subst hn
    left
    rfl

theorem reparse_id_of_str (e : ParsedCitation) (s : String)
    (hk : e.key = JsKey.str s) (hs : s ≠ "0") : reparse e = e := by
  cases e with
  | mk key creators rest =>
    dsimp only at hk
    subst hk
    have h2 : fixKey (encodeKey (JsKey.str s)) = JsKey.str s :=
      fixKey_encodeKeyStr s hs
    show ({ key := fixKey (encodeKey (JsKey.str s)),
            creators := normSeq (encodeSeq creators),
            rest := rest } : ParsedCitation) = _
    rw [normSeq_encodeSeq, h2]

theorem reparse_key_not_str (e : ParsedCitation) (k : String)
    (hfix : fixKey e.key = e.key) (hne : e.key ≠ JsKey.str k) :
    (reparse e).key ≠ JsKey.str k := by
  have hkey : (reparse e).key = fixKey (encodeKey e.key) := rfl
  rw [hkey]
  rcases fixKey_encodeKey_of_fixed e.key hfix with h | h
  · rw [h]
    exact hne
  · rw [h]
    simp

theorem reparse_filter_str_eq (l : List ParsedCitation) (k : String)
    (hk : k ≠ "0") (hfix : ∀ e ∈ l, fixKey e.key = e.key) :
    (l.map reparse).filter (fun c => c.key == JsKey.str k)
      = l.filter (fun c => c.key == JsKey.str k) := by
  induction l with
  | nil => rfl
  | cons a t ih =>
    have hfa : fixKey a.key = a.key := hfix a (List.mem_cons_self a t)
    have hft : ∀ e ∈ t, fixKey e.key = e.key :=
      fun e he => hfix e (List.mem_cons_of_mem a he)
    rw [List.map_cons]
    by_cases ha : a.key = JsKey.str k
    · have hida : reparse a = a := reparse_id_of_str a k ha hk
      rw [hida, List.filter_cons_of_pos (by simp [ha]),
        List.filter_cons_of_pos (by simp [ha]), ih hft]
    · have hra : (reparse a).key ≠ JsKey.str k :=
        reparse_key_not_str a k hfa ha
      rw [List.filter_cons_of_neg (by simp [hra]),
        List.filter_cons_of_neg (by simp [ha]), ih hft]

theorem mapLookup_eq_none (l : List ParsedCitation) (k : JsKey)
    (h : ∀ e ∈ l, e.key ≠ k) : mapLookup l k = none := by
  unfold mapLookup
  rw [List.find?_eq_none]
  intro e he
  have := h e (List.mem_reverse.mp he)
  simpa using this

theorem map_reparse_id_of (m : List ParsedCitation)
    (hm : ∀ e ∈ m, reparse e = e) : m.map reparse = m := by
  induction m with
  | nil => rfl
  | cons a t ih =>
    rw [List.map_cons, hm a (List.mem_cons_self a t),
      ih (fun e he => hm e (List.mem_cons_of_mem a he))]

theorem mem_usedKeysOf (s : String) (slides : List (Option String)) :
    s ∈ usedKeysOf slides
      ↔ ∃ t ∈ slides, s ∈ getCitationKeysOnSlideOp t := by
  unfold usedKeysOf
  simp [List.mem_flatten, List.mem_map]

/-- C2 counterexample: upserting the record with key 0 twice leaves two
records in the persisted block, both stored under the number key 0: the
loaded copy's key is the unstringified number 0 (the truthy guard skips it),
the dedup filter compares it against the string key with strict inequality
and keeps it, and the appended copy is serialized back to the number 0.  So
the store does not hold exactly one record under that key after the second
upsert, refuting the universal uniqueness claim. -/
theorem store_upsert_counterexample :
    ((parseStore (addOp (addOp none recZero) recZero)).filter
        (fun c => c.key == JsKey.num 0)).length = 2
    ∧ (parseStore (addOp (addOp none recZero) recZero)).length = 2 := by
  exact ⟨by decide, by decide⟩

/-- C2 amended: for every record whose key is not the canonical numeral 0,
upsert leaves exactly one record under that key in the persisted block (the
record just written), leaves the records under any other non-0 key
untouched, and remove and prune never increase the number of records under
any non-0 key, from any prior persisted state.  At key 0 the dedup fails
(see the counterexample). -/
theorem store_upsert_unique_key (p : PersistedStore) (r : ZoteroItemData)
    (h : r.key ≠ "0") :
    (parseStore (addOp p r)).filter (fun c => c.key == JsKey.str r.key)
      = [toParsed r]
    ∧ (∀ k, k ≠ r.key → k ≠ "0" →
        (parseStore (addOp p r)).filter (fun c => c.key == JsKey.str k)
          = (parseStore p).filter (fun c => c.key == JsKey.str k))
    ∧ (∀ k0 k, k ≠ "0" →
        ((parseStore (removeOpP p k0).store).filter
            (fun c => c.key == JsKey.str k)).length
          ≤ ((parseStore p).filter (fun c => c.key == JsKey.str k)).length)
    ∧ (∀ slides k, k ≠ "0" →
        ((parseStore (pruneOpP p slides).store).filter
            (fun c => c.key == JsKey.str k)).length
          ≤ ((parseStore p).filter (fun c => c.key == JsKey.str k)).length) := by
  have hfixp := parseStore_key_fixed p
  have hrt : reparse (toParsed r) = toParsed r := parse_encode_toParsed r h
  refine ⟨?_, ?_, ?_, ?_⟩
  · unfold addOp
    rw [parseStore_saveStore_reparse, List.map_append, List.filter_append]
    have hfilt : ∀ e ∈ (parseStore p).filter
        (fun e => e.key != JsKey.str r.key), fixKey e.key = e.key :=
      fun e he => hfixp e (List.mem_filter.mp he).1
    rw [reparse_filter_str_eq _ r.key h hfilt,
      filterP_bne_beq_nil (JsKey.str r.key) (parseStore p)]
    rw [List.map_cons, List.map_nil, hrt,
      List.filter_cons_of_pos (by simp [toParsed])]
    rfl
  · intro k hk hk0
    unfold addOp
    rw [parseStore_saveStore_reparse, List.map_append, List.filter_append]
    have hfilt : ∀ e ∈ (parseStore p).filter
        (fun e => e.key != JsKey.str r.key), fixKey e.key = e.key :=
      fun e he => hfixp e (List.mem_filter.mp he).1
    rw [reparse_filter_str_eq _ k hk0 hfilt,
      filterP_bne_beq_other (JsKey.str r.key) (JsKey.str k)
        (by intro hc; exact hk (JsKey.str.inj hc)) (parseStore p)]
    have hsing : ([toParsed r].map reparse).filter
        (fun c => c.key == JsKey.str k) = [] := by
      rw [List.map_cons, List.map_nil, hrt,
        List.filter_cons_of_neg
          (by simp [toParsed]; exact fun hc => hk hc.symm)]
      rfl
    rw [hsing, List.append_nil]
  · intro k0 k hk0
    unfold removeOpP
    dsimp only
    split
    · dsimp only
      rw [parseStore_saveStore_reparse]
      have hfilt : ∀ e ∈ (parseStore p).filter
          (fun c => c.key != JsKey.str k0), fixKey e.key = e.key :=
        fun e he => hfixp e (List.mem_filter.mp he).1
      rw [reparse_filter_str_eq _ k hk0 hfilt]
      exact (((List.filter_sublist (parseStore p)).filter _)).length_le
    · exact Nat.le_refl _
  · intro slides k hk0
    unfold pruneOpP
    dsimp only
    rw [parseStore_saveStore_reparse]
    have hfilt : ∀ e ∈ (parseStore p).filter
        (fun c => jsKeyInStrSet c.key (usedKeysOf slides)),
        fixKey e.key = e.key :=
      fun e he => hfixp e (List.mem_filter.mp he).1
    rw [reparse_filter_str_eq _ k hk0 hfilt]
    exact (((List.filter_sublist (parseStore p)).filter _)).length_le

/-- C2 witness: the uniqueness and frame parts instantiated on an upsert
into the empty persisted store, at a concrete other key. -/
theorem store_upsert_unique_key_witness :
    (parseStore (addOp none recA)).filter
        (fun c => c.key == JsKey.str recA.key) = [toParsed recA]
    ∧ (parseStore (addOp none recA)).filter (fun c => c.key == JsKey.str "B")
        = (parseStore none).filter (fun c => c.key == JsKey.str "B") :=
  ⟨(store_upsert_unique_key none recA (by decide)).1,
   (store_upsert_unique_key none recA (by decide)).2.1 "B" (by decide)
     (by decide)⟩

/-- C4 counterexample: a record upserted under the key 0 is stored under the
number key 0, so remove with the string key 0 finds nothing (strict
comparison of the number 0 against the string), returns false, and rewrites
nothing, although the record written under that key is still in the store —
refuting the claimed returns-true-iff-existed. -/
theorem remove_zero_key_counterexample :
    (removeOpP (addOp none recZero) "0").found = false
    ∧ (removeOpP (addOp none recZero) "0").saved = false
    ∧ (removeOpP (addOp none recZero) "0").store = addOp none recZero
    ∧ (parseStore (addOp none recZero)).length = 1 := by
  exact ⟨by decide, by decide, by decide, by decide⟩

/-- C4 amended: remove(k) returns true exactly when the loaded, normalized
store holds a record whose key is the string k — which, for a record that
was written under the key 0 and is therefore stored under the number 0, is
never the case (see the counterexample); afterwards getItem on k reports the
record absent; and on a miss the store is left unchanged and the persisted
block is not rewritten. -/
theorem remove_correct (p : PersistedStore) (k : String) :
    ((removeOpP p k).found = true ↔ ∃ c ∈ parseStore p, c.key = JsKey.str k)
    ∧ getItemManyOp (removeOpP p k).store [k] = [none]
    ∧ ((removeOpP p k).found = false →
        (removeOpP p k).store = p ∧ (removeOpP p k).saved = false) := by
  have hfixp := parseStore_key_fixed p
  have hiff : ((parseStore p).filter (fun c => c.key != JsKey.str k)).length
      < (parseStore p).length
      ↔ ∃ c ∈ parseStore p, c.key = JsKey.str k := by
    rw [length_filter_lt_iff]
    constructor
    · rintro ⟨c, hc, hcf⟩
      exact ⟨c, hc, by simpa using hcf⟩
    · rintro ⟨c, hc, hcf⟩
      exact ⟨c, hc, by simpa using hcf⟩
  refine ⟨?_, ?_, ?_⟩
  · unfold removeOpP
    dsimp only
    split
    · simpa using hiff.mp (by assumption)
    · simp only [Bool.false_eq_true, false_iff]
      intro hex
      exact absurd (hiff.mpr hex) (by assumption)
  · unfold getItemManyOp removeOpP
    dsimp only
    split
    · have hnone : mapLookup (parseStore (saveStore
          ((parseStore p).filter (fun c => c.key != JsKey.str k))))
          (JsKey.str k) = none := by
        rw [parseStore_saveStore_reparse]
        apply mapLookup_eq_none
        intro e he
        rw [List.mem_map] at he
        obtain ⟨e0, he0, hee⟩ := he
        subst hee
        obtain ⟨he1, he2⟩ := List.mem_filter.mp he0
        refine reparse_key_not_str e0 k (hfixp e0 he1) ?_
        intro hc
        rw [hc] at he2
        simp at he2
      simp [hnone]
    · have hnone : mapLookup (parseStore p) (JsKey.str k) = none := by
        apply mapLookup_eq_none
        intro e he hc
        exact absurd (hiff.mpr ⟨e, he, hc⟩) (by assumption)
      simp [hnone]
  · unfold removeOpP
    dsimp only
    split
    · intro hcon
      cases hcon
    · intro _
      exact ⟨rfl, rfl⟩

/-- C4 witness: removing a missing key from a one-record persisted store
leaves the block untouched and unsaved. -/
theorem remove_correct_witness :
    (removeOpP (addOp none recA) "Z").store = addOp none recA
    ∧ (removeOpP (addOp none recA) "Z").saved = false :=
  (remove_correct (addOp none recA) "Z").2.2 (by decide)

/-- C5 counterexample: a record upserted under the key 0 is stored under the
number key 0; the prune sweep's used-set holds strings, so its membership
test never matches the number 0, and prune deletes the record and returns 1
even though a page still references the key 0 — refuting removes-exactly-
the-unreferenced. -/
theorem prune_zero_key_counterexample :
    (pruneOpP (addOp none recZero) [some "0"]).removed = 1
    ∧ (pruneOpP (addOp none recZero) [some "0"]).store = none
    ∧ "0" ∈ getCitationKeysOnSlideOp (some "0") := by
  exact ⟨by decide, by decide, by decide⟩

/-- C5 amended: on a persisted store holding no record under the number key
0 or the string key 0, prune keeps exactly the records whose (string) key is
referenced by some slide, returns the original count minus the new count,
which is the number of unreferenced records, and an immediately repeated
prune returns 0.  A record written under the key 0 is stored under the
number 0 and is deleted even when referenced (see the counterexample). -/
theorem prune_correct (p : PersistedStore) (slides : List (Option String))
    (h0 : ∀ c ∈ parseStore p,
      c.key ≠ JsKey.str "0" ∧ c.key ≠ JsKey.num 0) :
    (∀ c, c ∈ parseStore (pruneOpP p slides).store ↔
        (c ∈ parseStore p ∧ ∃ s, c.key = JsKey.str s
          ∧ ∃ t ∈ slides, s ∈ getCitationKeysOnSlideOp t))
    ∧ (pruneOpP p slides).removed
        = (parseStore p).length
          - (parseStore (pruneOpP p slides).store).length
    ∧ (pruneOpP p slides).removed
        = ((parseStore p).filter
            (fun c => !(jsKeyInStrSet c.key (usedKeysOf slides)))).length
    ∧ (pruneOpP (pruneOpP p slides).store slides).removed = 0 := by
  have hfixp := parseStore_key_fixed p
  have hstr : ∀ c ∈ (parseStore p).filter
      (fun c => jsKeyInStrSet c.key (usedKeysOf slides)),
      ∃ s, c.key = JsKey.str s ∧ s ≠ "0" := by
    intro c hc
    obtain ⟨hcl, hcp⟩ := List.mem_filter.mp hc
    cases hk : c.key with
    | str s =>
      refine ⟨s, rfl, ?_⟩
      intro hs
      exact (h0 c hcl).1 (by rw [hk, hs])
    | num n =>
      rw [hk] at hcp
      simp [jsKeyInStrSet] at hcp
  have hparse : parseStore (pruneOpP p slides).store
      = (parseStore p).filter
          (fun c => jsKeyInStrSet c.key (usedKeysOf slides)) := by
    show parseStore (saveStore _) = _
    rw [parseStore_saveStore_reparse]
    refine map_reparse_id_of _ ?_
    intro e he
    obtain ⟨s, hks, hs⟩ := hstr e he
    exact reparse_id_of_str e s hks hs
  refine ⟨?_, ?_, ?_, ?_⟩
  · intro c
    rw [hparse, List.mem_filter]
    constructor
    · rintro ⟨hcl, hcp⟩
      refine ⟨hcl, ?_⟩
      cases hk : c.key with
      | str s =>
        rw [hk] at hcp
        simp only [jsKeyInStrSet, decide_eq_true_eq] at hcp
        obtain ⟨t, ht, hs⟩ := (mem_usedKeysOf s slides).mp hcp
        exact ⟨s, rfl, t, ht, hs⟩
      | num n =>
        rw [hk] at hcp
        simp [jsKeyInStrSet] at hcp
    · rintro ⟨hcl, s, hks, t, ht, hs⟩
      refine ⟨hcl, ?_⟩
      rw [hks]
      simp only [jsKeyInStrSet, decide_eq_true_eq]
      exact (mem_usedKeysOf s slides).mpr ⟨t, ht, hs⟩
  · rw [hparse]
    rfl
  · unfold pruneOpP
    dsimp only
    exact length_sub_length_filter _ (parseStore p)
  · show (parseStore (pruneOpP p slides).store).length
        - ((parseStore (pruneOpP p slides).store).filter
            (fun c => jsKeyInStrSet c.key (usedKeysOf slides))).length = 0
    rw [hparse, List.filter_eq_self.mpr
      (fun a ha => (List.mem_filter.mp ha).2), Nat.sub_self]

/-- C5 witness: a one-record persisted store fully referenced by one slide:
prune returns the original minus new count (0 removed) and a second prune
also returns 0. -/
theorem prune_correct_witness :
    (pruneOpP (addOp none recA) [some "A,B"]).removed
      = (parseStore (addOp none recA)).length
        - (parseStore (pruneOpP (addOp none recA) [some "A,B"]).store).length
    ∧ (pruneOpP (pruneOpP (addOp none recA) [some "A,B"]).store
        [some "A,B"]).removed = 0 :=
  ⟨(prune_correct (addOp none recA) [some "A,B"] (by decide)).2.1,
   (prune_correct (addOp none recA) [some "A,B"] (by decide)).2.2.2⟩

/-! ## Markup parser lemmas (C8, C10) -/

theorem flushSeg_texts (acc : List Char) (b i : Bool) :
    ((flushSeg acc b i).map (fun seg => seg.text.data)).flatten = acc := by
  unfold flushSeg
  by_cases h : acc.isEmpty
  · rw [if_pos h]
    simp [List.isEmpty_iff.mp h]
  · rw [if_neg h]
    simp

theorem flushSeg_nonempty (acc : List Char) (b i : Bool) :
    ∀ seg ∈ flushSeg acc b i, seg.text ≠ "" := by
  intro seg hs
  unfold flushSeg at hs
  by_cases h : acc.isEmpty
  · rw [if_pos h] at hs
    cases hs
  · rw [if_neg h] at hs
    simp only [List.mem_singleton] at hs
    subst hs
    intro he
    have hd := congrArg String.data he
    simp at hd
    rw [hd] at h
    exact h rfl

theorem parseFmtAux_texts (bold italic : Bool) (acc s : List Char) :
    ((parseFmtAux bold italic acc s).map (fun seg => seg.text.data)).flatten
      = acc ++ stripMarkupTags s := by
  induction bold, italic, acc, s using parseFmtAux.induct with
  | case1 b i acc =>
    rw [parseFmtAux, stripMarkupTags, flushSeg_texts]
    simp
  | case2 b i acc rest ih =>
    rw [parseFmtAux, stripMarkupTags, List.map_append, List.flatten_append,
      flushSeg_texts, ih]
    simp
  | case3 b i acc rest ih =>
    rw [parseFmtAux, stripMarkupTags, List.map_append, List.flatten_append,
      flushSeg_texts, ih]
    simp
  | case4 b i acc rest ih =>
    rw [parseFmtAux, stripMarkupTags, List.map_append, List.flatten_append,
      flushSeg_texts, ih]
    simp
  | case5 b i acc rest ih =>
    rw [parseFmtAux, stripMarkupTags, List.map_append, List.flatten_append,
      flushSeg_texts, ih]
    simp
  | case6 b i acc c rest hnb hnbc hni hnic ih =>
    rw [parseFmtAux, stripMarkupTags, ih] <;>
      first
        | exact hnb
        | exact hnbc
        | exact hni
        | exact hnic
        | simp

theorem parseFmtAux_nonempty (bold italic : Bool) (acc s : List Char) :
    ∀ seg ∈ parseFmtAux bold italic acc s, seg.text ≠ "" := by
  induction bold, italic, acc, s using parseFmtAux.induct with
  | case1 b i acc =>
    rw [parseFmtAux]
    exact flushSeg_nonempty acc b i
  | case2 b i acc rest ih =>
    rw [parseFmtAux]
    intro seg hs
    rcases List.mem_append.mp hs with hm | hm
    · exact flushSeg_nonempty acc b i seg hm
    · exact ih seg hm
  | case3 b i acc rest ih =>
    rw [parseFmtAux]
    intro seg hs
    rcases List.mem_append.mp hs with hm | hm
    · exact flushSeg_nonempty acc b i seg hm
    · exact ih seg hm
  | case4 b i acc rest ih =>
    rw [parseFmtAux]
    intro seg hs
    rcases List.mem_append.mp hs with hm | hm
    · exact flushSeg_nonempty acc b i seg hm
    · exact ih seg hm
  | case5 b i acc rest ih =>
    rw [parseFmtAux]
    intro seg hs
    rcases List.mem_append.mp hs with hm | hm
    · exact flushSeg_nonempty acc b i seg hm
    · exact ih seg hm
  | case6 b i acc c rest hnb hnbc hni hnic ih =>
    rw [parseFmtAux] <;>
      first
        | exact ih
        | exact hnb
        | exact hnbc
        | exact hni
        | exact hnic

theorem specFinish_foldl_parseFmtAux (s : List Char) :
    ∀ (bold italic : Bool) (acc : List Char) (out : List FormattedText),
    specFinish ((lexMarkup s).foldl specStep
        { bold := bold, italic := italic, acc := acc, out := out })
      = out ++ parseFmtAux bold italic acc s := by
  induction s using lexMarkup.induct with
  | case1 =>
    intro b i acc out
    rw [lexMarkup, parseFmtAux]
    rfl
  | case2 rest ih =>
    intro b i acc out
    rw [lexMarkup, parseFmtAux, List.foldl_cons]
    rw [show specStep { bold := b, italic := i, acc := acc, out := out }
        (.tag false .b)
      = { bold := true, italic := i, acc := [],
          out := out ++ flushSeg acc b i } from rfl]
    rw [ih, List.append_assoc]
  | case3 rest ih =>
    intro b i acc out
    rw [lexMarkup, parseFmtAux, List.foldl_cons]
    rw [show specStep { bold := b, italic := i, acc := acc, out := out }
        (.tag true .b)
      = { bold := false, italic := i, acc := [],
          out := out ++ flushSeg acc b i } from rfl]
    rw [ih, List.append_assoc]
  | case4 rest ih =>
    intro b i acc out
    rw [lexMarkup, parseFmtAux, List.foldl_cons]
    rw [show specStep { bold := b, italic := i, acc := acc, out := out }
        (.tag false .i)
      = { bold := b, italic := true, acc := [],
          out := out ++ flushSeg acc b i } from rfl]
    rw [ih, List.append_assoc]
  | case5 rest ih =>
    intro b i acc out
    rw [lexMarkup, parseFmtAux, List.foldl_cons]
    rw [show specStep { bold := b, italic := i, acc := acc, out := out }
        (.tag true .i)
      = { bold := b, italic := false, acc := [],
          out := out ++ flushSeg acc b i } from rfl]
    rw [ih, List.append_assoc]
  | case6 c rest hnb hnbc hni hnic ih =>
    intro b i acc out
    rw [lexMarkup, parseFmtAux, List.foldl_cons] <;>
      first
        | rw [show specStep { bold := b, italic := i, acc := acc, out := out }
              (.chr c)
            = { bold := b, italic := i, acc := acc ++ [c], out := out } from rfl]
          rw [ih]
        | exact hnb
        | exact hnbc
        | exact hni
        | exact hnic

/-- C8: the inline-markup pass has exactly the non-nesting toggle semantics:
the scanner of parseFormattedText agrees with the two-pass reference
(tokenize the tags, then fold the independent bold/italic toggles, stripping
tags and emitting pending text at each tag) on every input string; and the
worked example holds: rendering the bold-title-comma-year template for a
record titled Foo dated 2020-01-01 yields exactly the bold Foo segment and
the unstyled comma-year segment. -/
theorem markup_toggle_semantics :
    (∀ s : String, parseFormattedText s = specSegments s)
    ∧ formatCitation "<b>\x7btitle\x7d</b>, \x7byear\x7d"
        { key := "K1", creators := [],
          rest := { title := "Foo", date := some "2020-01-01" } }
        none (fun _ => none)
      = some [{ text := "Foo", bold := true, italic := false },
              { text := ", 2020", bold := false, italic := false }] := by
  constructor
  · intro s
    unfold parseFormattedText specSegments
    have h := specFinish_foldl_parseFmtAux s.data false false [] []
    rw [h]
    rfl
  · decide

/-- C10: the markup parser loses no text and invents none: concatenating the
segment texts in order gives the input with the four tag tokens removed, and
no returned segment is empty. -/
theorem markup_parse_preserves_text (s : String) :
    ((parseFormattedText s).map (fun seg => seg.text.data)).flatten
      = stripMarkupTags s.data
    ∧ (∀ seg ∈ parseFormattedText s, seg.text ≠ "") := by
  constructor
  · have h := parseFmtAux_texts false false [] s.data
    rw [List.nil_append] at h
    exact h
  · exact parseFmtAux_nonempty false false [] s.data

/-- C10 witness: the preservation statement instantiated on a concrete
string with both tag kinds, and segment nonemptiness applied to a concrete
member segment. -/
theorem markup_parse_preserves_text_witness :
    ((parseFormattedText "a<b>x</b><i></i>y").map
        (fun seg => seg.text.data)).flatten
      = stripMarkupTags "a<b>x</b><i></i>y".data
    ∧ ({ text := "a", bold := false, italic := false } : FormattedText).text
        ≠ "" :=
  ⟨(markup_parse_preserves_text "a<b>x</b><i></i>y").1,
   (markup_parse_preserves_text "a<b>x</b><i></i>y").2
     { text := "a", bold := false, italic := false } (by decide)⟩

/-! ## Delimiter placement lemmas (C9) -/

theorem getCreator_isSome_of_ne_one (creators : List ZoteroCreator)
    (f : String) (h : creators.length ≠ 1) :
    ∃ cr, getCreator creators f = some cr := by
  unfold getCreator
  cases creators with
  | nil => exact ⟨f, by simp⟩
  | cons a t =>
    cases t with
    | nil => exact absurd rfl h
    | cons b t2 =>
      refine ⟨getDisplayName a f ++ " et al.", ?_⟩
      rw [if_neg (by simp), if_neg (by simp)]
      rfl

theorem formatCitation_of_creator (template : String) (c : ZoteroItemData)
    (extras : Option FormatExtras) (svc : String → Option String)
    (cr : String) (h : getCreator c.creators "Unknown" = some cr) :
    formatCitation template c extras svc
      = some (formatCitationCore template c extras svc cr) := by
  unfold formatCitation
  rw [h]
  rfl

theorem fmtTotal_of_creator (template : String)
    (svc : String → Option String) (i : Nat) (c : ZoteroItemData)
    (cr : String) (h : getCreator c.creators "Unknown" = some cr) :
    fmtTotal template svc i c
      = formatCitationCore template c (some { index := some i }) svc cr := by
  unfold fmtTotal
  rw [h]
  rfl

theorem renderLoopAux_eq_spec (template delim : String)
    (svc : String → Option String) (cs : List (Option ZoteroItemData)) :
    ∀ (i n : Nat), n = i + cs.length →
    (∀ oc ∈ cs, ∀ c, oc = some c → c.creators.length ≠ 1) →
    renderLoopAux template delim svc n i cs
      = some (renderSpecSegs (fmtTotal template svc) delim i cs) := by
  induction cs with
  | nil =>
    intro i n hn h
    rfl
  | cons a t ih =>
    intro i n hn h
    have hn2 : n = (i + 1) + t.length := by
      rw [hn, List.length_cons]
      omega
    have hrest : ∀ oc ∈ t, ∀ c, oc = some c → c.creators.length ≠ 1 :=
      fun oc hoc => h oc (List.mem_cons_of_mem a hoc)
    cases a with
    | none =>
      rw [renderLoopAux, renderSpecSegs]
      exact ih (i + 1) n hn2 hrest
    | some c =>
      have hc : c.creators.length ≠ 1 :=
        h (some c) (List.mem_cons_self _ t) c rfl
      obtain ⟨cr, hcr⟩ := getCreator_isSome_of_ne_one c.creators "Unknown" hc
      have hfmt := formatCitation_of_creator template c
        (some { index := some i }) svc cr hcr
      have hrec := ih (i + 1) n hn2 hrest
      rw [renderLoopAux, hfmt, hrec]
      rw [renderSpecSegs, fmtTotal_of_creator template svc i c cr hcr]
      have hif : (if i < n - 1 then [delimSeg delim] else [])
          = (if t.isEmpty then [] else [delimSeg delim]) := by
        cases t with
        | nil =>
          have hn3 : n = i + 1 := by simpa using hn2
          have : ¬ i < n - 1 := by omega
          rw [if_neg this]
          rfl
        | cons b t2 =>
          have hn3 : n = i + 1 + (t2.length + 1) := by
            rw [hn2, List.length_cons]
          have : i < n - 1 := by omega
          rw [if_pos this]
          rfl
      rw [hif]

theorem intercalate_cons_ne_nil {α : Type} (sep x : List α)
    (L : List (List α)) (h : L ≠ []) :
    List.intercalate sep (x :: L) = x ++ sep ++ List.intercalate sep L := by
  cases L with
  | nil => exact absurd rfl h
  | cons y t =>
    unfold List.intercalate
    rw [List.intersperse_cons_cons]
    rw [List.flatten_cons, List.flatten_cons]
    rw [List.append_assoc]

theorem renderedSegLists_ne_nil
    (f : Nat → ZoteroItemData → List FormattedText)
    (cs : List (Option ZoteroItemData)) (z : ZoteroItemData) :
    ∀ i, cs.getLast? = some (some z) → renderedSegLists f i cs ≠ [] := by
  induction cs with
  | nil =>
    intro i h
    cases h
  | cons a t ih =>
    intro i h
    cases t with
    | nil =>
      have ha : a = some z := by simpa using h
      subst ha
      rw [renderedSegLists]
      simp
    | cons b t2 =>
      have ht : (b :: t2).getLast? = some (some z) := by
        rw [List.getLast?_cons_cons] at h
        exact h
      cases a with
      | none =>
        rw [renderedSegLists]
        exact ih (i + 1) ht
      | some c =>
        rw [renderedSegLists]
        simp

theorem renderSpecSegs_intercalate
    (f : Nat → ZoteroItemData → List FormattedText) (delim : String)
    (cs : List (Option ZoteroItemData)) (z : ZoteroItemData) :
    ∀ i, cs.getLast? = some (some z) →
    renderSpecSegs f delim i cs
      = List.intercalate [delimSeg delim] (renderedSegLists f i cs) := by
  induction cs with
  | nil =>
    intro i h
    cases h
  | cons a t ih =>
    intro i h
    cases t with
    | nil =>
      have ha : a = some z := by simpa using h
      subst ha
      rw [renderSpecSegs, renderedSegLists, renderedSegLists]
      show f i z ++ [] ++ [] = List.intercalate [delimSeg delim] [f i z]
      rw [List.intercalate]
      simp [List.intersperse]
    | cons b t2 =>
      have ht : (b :: t2).getLast? = some (some z) := by
        rw [List.getLast?_cons_cons] at h
        exact h
      cases a with
      | none =>
        rw [renderSpecSegs, renderedSegLists]
        exact ih (i + 1) ht
      | some c =>
        rw [renderSpecSegs, renderedSegLists]
        rw [ih (i + 1) ht]
        rw [intercalate_cons_ne_nil _ _ _
          (renderedSegLists_ne_nil f (b :: t2) z (i + 1) ht)]
        show f i c ++ [delimSeg delim] ++ _ = _
        rw [List.append_assoc]

theorem renderSpecSegs_all_none
    (f : Nat → ZoteroItemData → List FormattedText) (delim : String)
    (cs : List (Option ZoteroItemData)) :
    ∀ i, (∀ oc ∈ cs, oc = none) → renderSpecSegs f delim i cs = [] := by
  induction cs with
  | nil =>
    intro i _
    rfl
  | cons a t ih =>
    intro i h
    have ha : a = none := h a (List.mem_cons_self a t)
    subst ha
    rw [renderSpecSegs]
    exact ih (i + 1) (fun oc hoc => h oc (List.mem_cons_of_mem none hoc))

theorem renderSpecSegs_trailing
    (f : Nat → ZoteroItemData → List FormattedText) (delim : String)
    (cs : List (Option ZoteroItemData)) :
    ∀ i, cs.getLast? = some none → (∃ oc ∈ cs, oc.isSome) →
    ∃ L, renderSpecSegs f delim i cs = L ++ [delimSeg delim] := by
  induction cs with
  | nil =>
    intro i h
    cases h
  | cons a t ih =>
    intro i h hsome
    cases t with
    | nil =>
      have ha : a = none := by simpa using h
      subst ha
      obtain ⟨oc, hoc, hox⟩ := hsome
      simp at hoc
      subst hoc
      cases hox
    | cons b t2 =>
      have ht : (b :: t2).getLast? = some none := by
        rw [List.getLast?_cons_cons] at h
        exact h
      cases a with
      | none =>
        rw [renderSpecSegs]
        refine ih (i + 1) ht ?_
        obtain ⟨oc, hoc, hox⟩ := hsome
        rcases List.mem_cons.mp hoc with hh | hh
        · subst hh
          cases hox
        · exact ⟨oc, hh, hox⟩
      | some c =>
        rw [renderSpecSegs]
        by_cases hpres : ∃ oc ∈ (b :: t2), oc.isSome
        · obtain ⟨L, hL⟩ := ih (i + 1) ht hpres
          refine ⟨f i c ++ [delimSeg delim] ++ L, ?_⟩
          rw [hL]
          show f i c ++ (if (b :: t2).isEmpty then [] else [delimSeg delim])
              ++ (L ++ [delimSeg delim]) = _
          simp [List.append_assoc]
        · have hall : ∀ oc ∈ (b :: t2), oc = none := by
            intro oc hoc
            cases hx : oc with
            | none => rfl
            | some w =>
              exact absurd ⟨oc, hoc, by rw [hx]; rfl⟩ hpres
          rw [renderSpecSegs_all_none f delim (b :: t2) (i + 1) hall]
          refine ⟨f i c, ?_⟩
          show f i c ++ (if (b :: t2).isEmpty then [] else [delimSeg delim])
              ++ [] = _
          rw [show ((b :: t2).isEmpty = false) from rfl]
          simp

/-- A present record used by the delimiter counterexample and witness. -/
def recAlpha : ZoteroItemData := { key := "X1", rest := { title := "Alpha" } }

/-- C9 counterexample: for the key list [present, missing] (the second key
is absent from the store), the rendered segments are the segments of the
first citation followed by a trailing unstyled delimiter segment, i.e. a
delimiter does appear after the last rendered citation, contradicting the
claim for lists whose final key is missing (the loop pushes the delimiter
based on the list index, and the missing final citation contributes nothing
after it). -/
theorem delimiter_trailing_counterexample :
    showCitationSegments "\x7btitle\x7d" ";  " (fun _ => none)
        [some recAlpha, none]
      = some [{ text := "Alpha", bold := false, italic := false },
              { text := ";  ", bold := false, italic := false }]
    ∧ (some [{ text := "Alpha", bold := false, italic := false },
             { text := ";  ", bold := false, italic := false }]).get!.getLast?
        = some (delimSeg ";  ") := by
  exact ⟨by decide, by decide⟩

/-- C9 amended: in showCitationsOnSlide a present citation is followed by
the unstyled delimiter segment exactly when it is not at the final position
of the key list, and a missing citation contributes neither segments nor a
delimiter.  Hence when the final key is present in the store the segments
are exactly the rendered citations interleaved with single delimiter
segments (never one after the last); when the final key is missing and at
least one citation rendered, a trailing delimiter segment remains.  The
hypothesis rules out the unrelated one-creator formatter crash. -/
theorem delimiter_placement (template delim : String)
    (svc : String → Option String) (cs : List (Option ZoteroItemData))
    (h : ∀ oc ∈ cs, ∀ c, oc = some c → c.creators.length ≠ 1) :
    showCitationSegments template delim svc cs
      = some (renderSpecSegs (fmtTotal template svc) delim 0 cs)
    ∧ (∀ z, cs.getLast? = some (some z) →
        showCitationSegments template delim svc cs
          = some (List.intercalate [delimSeg delim]
              (renderedSegLists (fmtTotal template svc) 0 cs)))
    ∧ (cs.getLast? = some none → (∃ oc ∈ cs, oc.isSome) →
        ∃ L, showCitationSegments template delim svc cs
          = some (L ++ [delimSeg delim])) := by
  have hmain : showCitationSegments template delim svc cs
      = some (renderSpecSegs (fmtTotal template svc) delim 0 cs) := by
    unfold showCitationSegments
    exact renderLoopAux_eq_spec template delim svc cs 0 cs.length (by omega) h
  refine ⟨hmain, ?_, ?_⟩
  · intro z hz
    rw [hmain,
      renderSpecSegs_intercalate (fmtTotal template svc) delim cs z 0 hz]
  · intro hz hsome
    obtain ⟨L, hL⟩ :=
      renderSpecSegs_trailing (fmtTotal template svc) delim cs 0 hz hsome
    exact ⟨L, by rw [hmain, hL]⟩

/-- C9 witness: for the key list [present, present] the segments are the two
rendered citations joined by exactly one delimiter segment and nothing after
the last. -/
theorem delimiter_placement_witness :
    showCitationSegments "\x7btitle\x7d" ";  " (fun _ => none)
        [some recAlpha, some recA]
      = some (List.intercalate [delimSeg ";  "]
          (renderedSegLists (fmtTotal "\x7btitle\x7d" (fun _ => none)) 0
            [some recAlpha, some recA])) :=
  (delimiter_placement "\x7btitle\x7d" ";  " (fun _ => none)
    [some recAlpha, some recA] (by decide)).2.1 recA (by decide)

end ZPPT
